import Mathlib

/-!
# Maximum / minimum of three datasets: the MPI and the OpenMP program

A shallow embedding of `mpi_maxmin.c` and `openmp_maxmin.c`.

* C `int` values are mathematical integers (`Int`); the 32-bit range is the
  predicate `isInt`, and the one arithmetic operation of the programs, the
  subtraction `global_max - global_min`, wraps modulo `2^32` (`int_sub`).
* An array argument `int dataset[]` is the list of the cells the pointer
  gives access to; the `size` argument is passed separately, as in C. A read
  outside the list has no defined value: the result is `none`.
* `printf` calls are left out.
* `openmp_maxmin.c` has lost the line break after several `//` comments: the
  declaration `int global_max = INT_MIN;`, both `#pragma omp` lines, the first
  `if (thread_id == 0) {`, the `if (local_min < global_min) {` and the `for`
  header of `process_dataset_omp` stand on the same line as a comment. The
  embedding reads them as statements, the only reading under which the file
  is a C program.
-/

set_option linter.unusedVariables false

namespace MaxMin

/-! ## Machine integers -/

/-- The constant `INT_MIN` of `<limits.h>` for a 32-bit `int`. -/
def INT_MIN : Int := -2147483648

/-- The constant `INT_MAX` of `<limits.h>` for a 32-bit `int`. -/
def INT_MAX : Int := 2147483647

/-- A value that a 32-bit signed `int` can hold. -/
def isInt (x : Int) : Prop := INT_MIN ≤ x ∧ x ≤ INT_MAX

instance (x : Int) : Decidable (isInt x) := by unfold isInt; infer_instance

/-- Subtraction of two `int` values, wrapped into the 32-bit signed range. -/
def int_sub (a b : Int) : Int := (a - b + 2147483648) % 4294967296 - 2147483648

/-! ## The compiled-in datasets (both programs, same literals) -/

def dataset1 : List Int := [45, 67, 23, 89, 56, 78, 34, 91, 42, 73]
def dataset2 : List Int := [38, 92, 15, 64, 87, 29, 76, 53, 81, 47]
def dataset3 : List Int := [52, 31, 88, 19, 74, 96, 41, 63, 27, 85]
def data_size : Int := 10

/-! ## The local scan -/

/-- The loop `for (int i = 1; i < size; i++) { ... }` of `process_dataset`,
with `n` iterations left and the loop variable at `i`: each iteration reads
`dataset[i]`, assigns it to `*max_val` when it is greater and to `*min_val`
when it is smaller. The counter cannot overflow: `i < size ≤ INT_MAX`. -/
def scan_loop (dataset : List Int) : Nat → Nat → Int → Int → Option (Int × Int)
  | 0, _, max_val, min_val => some (max_val, min_val)
  | n + 1, i, max_val, min_val =>
    match dataset[i]? with
    | none => none
    | some d =>
      scan_loop dataset n (i + 1)
        (if d > max_val then d else max_val)
        (if d < min_val then d else min_val)

/-- The function `process_dataset` of `mpi_maxmin.c`. `max_val` and `min_val`
are the values the two output cells hold at the call (two distinct cells, as
at every call site); the result is the pair of values they hold at the
return. The loop runs `size - 1` times when `size > 1` and not at all
otherwise. `rank` and `name` only feed `printf`. -/
def process_dataset (dataset : List Int) (size : Int) (max_val min_val : Int) :
    Option (Int × Int) :=
  match dataset[0]? with
  | none => none
  | some first => scan_loop dataset (size - 1).toNat 1 first first

/-- The function `process_dataset_omp` of `openmp_maxmin.c`: the same
statements as `process_dataset`. -/
def process_dataset_omp (dataset : List Int) (size : Int) (max_val min_val : Int) :
    Option (Int × Int) :=
  match dataset[0]? with
  | none => none
  | some first => scan_loop dataset (size - 1).toNat 1 first first

/-! ## Static work assignment -/

/-- The `if / else if` chain of `main` in `mpi_maxmin.c` as process `rank`
of `size` processes runs it, on datasets `d1 d2 d3` of `n` elements: the
values of `(local_max, local_min)` after the chain. Both start at
`(INT_MIN, INT_MAX)`. -/
def mpi_local_on (d1 d2 d3 : List Int) (n : Int) (rank size : Nat) :
    Option (Int × Int) :=
  let local_max := INT_MIN
  let local_min := INT_MAX
  if rank = 0 then process_dataset d1 n local_max local_min
  else if rank = 1 ∧ size > 1 then process_dataset d2 n local_max local_min
  else if rank = 2 ∧ size > 2 then process_dataset d3 n local_max local_min
  else some (INT_MIN, INT_MAX)

/-- The chain of `mpi_maxmin.c` on the compiled-in datasets. -/
def mpi_local (rank size : Nat) : Option (Int × Int) :=
  mpi_local_on dataset1 dataset2 dataset3 data_size rank size

/-- The `if / else if` chain of the parallel region of `openmp_maxmin.c` as
thread `thread_id` runs it: the values of `(local_max, local_min)` after the
chain. The chain has no guard on the number of threads. -/
def omp_local_on (d1 d2 d3 : List Int) (n : Int) (thread_id : Nat) :
    Option (Int × Int) :=
  let local_max := INT_MIN
  let local_min := INT_MAX
  if thread_id = 0 then process_dataset_omp d1 n local_max local_min
  else if thread_id = 1 then process_dataset_omp d2 n local_max local_min
  else if thread_id = 2 then process_dataset_omp d3 n local_max local_min
  else some (INT_MIN, INT_MAX)

/-- The chain of `openmp_maxmin.c` on the compiled-in datasets. -/
def omp_local (thread_id : Nat) : Option (Int × Int) :=
  omp_local_on dataset1 dataset2 dataset3 data_size thread_id

/-- The results of a list of workers, defined when each of them is. -/
def collect : List (Option (Int × Int)) → Option (List (Int × Int))
  | [] => some []
  | none :: _ => none
  | some p :: rest =>
    match collect rest with
    | none => none
    | some ps => some (p :: ps)

/-! ## Reduction -/

/-- The predefined reduction operation `MPI_MAX` on `MPI_INT`. -/
def MPI_MAX (a b : Int) : Int := max a b

/-- The predefined reduction operation `MPI_MIN` on `MPI_INT`. -/
def MPI_MIN (a b : Int) : Int := min a b

/-- The library call `MPI_Reduce(&x, &g, 1, MPI_INT, op, 0, MPI_COMM_WORLD)`:
the value the root receives is the send values of all processes, listed by
rank, combined with `op`. A communicator has at least one process; for no
process at all there is no value. -/
def MPI_Reduce (op : Int → Int → Int) : List Int → Option Int
  | [] => none
  | x :: xs => some (xs.foldl op x)

/-- The two `MPI_Reduce` calls of `mpi_maxmin.c`: `MPI_MAX` over the
`local_max` values and `MPI_MIN` over the `local_min` values. -/
def mpi_combine (locals : List (Int × Int)) : Option (Int × Int) :=
  match MPI_Reduce MPI_MAX (locals.map Prod.fst), MPI_Reduce MPI_MIN (locals.map Prod.snd) with
  | some global_max, some global_min => some (global_max, global_min)
  | _, _ => none

/-- The body of the critical section `global_update` of `openmp_maxmin.c`,
run by one thread on the shared pair `g = (global_max, global_min)` with its
own pair `l = (local_max, local_min)`. -/
def critical_update (g l : Int × Int) : Int × Int :=
  (if l.1 > g.1 then l.1 else g.1, if l.2 < g.2 then l.2 else g.2)

/-- The shared pair after the threads whose local pairs are `locals` have
run the critical section one after the other, in the order of the list, from
`global_max = INT_MIN`, `global_min = INT_MAX`. -/
def omp_combine (locals : List (Int × Int)) : Int × Int :=
  locals.foldl critical_update (INT_MIN, INT_MAX)

/-! ## The two programs -/

/-- What process 0 of `mpi_maxmin.c` prints when run with `size` processes on
datasets `d1 d2 d3` of `n` elements: global maximum, global minimum, range. -/
def mpi_main_on (d1 d2 d3 : List Int) (n : Int) (size : Nat) :
    Option (Int × Int × Int) :=
  match collect ((List.range size).map (fun rank => mpi_local_on d1 d2 d3 n rank size)) with
  | none => none
  | some locals =>
    match mpi_combine locals with
    | none => none
    | some (global_max, global_min) =>
      some (global_max, global_min, int_sub global_max global_min)

/-- The output of `mpi_maxmin.c` with `size` processes. -/
def mpi_main (size : Nat) : Option (Int × Int × Int) :=
  mpi_main_on dataset1 dataset2 dataset3 data_size size

/-- What `openmp_maxmin.c` prints after the parallel region when the threads
enter the critical section in the order `order` (the thread numbers of the
team, each once): global maximum, global minimum, range. -/
def omp_main_on (d1 d2 d3 : List Int) (n : Int) (order : List Nat) :
    Option (Int × Int × Int) :=
  match collect (order.map (fun thread_id => omp_local_on d1 d2 d3 n thread_id)) with
  | none => none
  | some locals =>
    let g := omp_combine locals
    some (g.1, g.2, int_sub g.1 g.2)

/-- The output of `openmp_maxmin.c` for the entry order `order`. -/
def omp_main (order : List Nat) : Option (Int × Int × Int) :=
  omp_main_on dataset1 dataset2 dataset3 data_size order

/-! ## Specification-side notions -/

/-- The value `m` is the true maximum of `S`: an element that none exceeds. -/
def IsMaxOf (m : Int) (S : List Int) : Prop := m ∈ S ∧ ∀ x ∈ S, x ≤ m

/-- The value `m` is the true minimum of `S`: an element that none is below. -/
def IsMinOf (m : Int) (S : List Int) : Prop := m ∈ S ∧ ∀ x ∈ S, m ≤ x

instance (m : Int) (S : List Int) : Decidable (IsMaxOf m S) := by
  unfold IsMaxOf; infer_instance

instance (m : Int) (S : List Int) : Decidable (IsMinOf m S) := by
  unfold IsMinOf; infer_instance

/-- One step of the maximum accumulator: `if (d > acc) acc = d;`. -/
def stepMax (acc d : Int) : Int := if d > acc then d else acc

/-- One step of the minimum accumulator: `if (d < acc) acc = d;`. -/
def stepMin (acc d : Int) : Int := if d < acc then d else acc

/-- The compiled-in datasets in the order of the chain. -/
def datasets : List (List Int) := [dataset1, dataset2, dataset3]

/-- The local pair of worker `i` on the compiled-in datasets, as the
specification tabulates it: the three expected local results, and the
identity pair for an idle worker. -/
def expected_local (i : Nat) : Int × Int :=
  if i = 0 then (91, 23) else if i = 1 then (92, 15) else if i = 2 then (96, 19)
  else (INT_MIN, INT_MAX)

/-- The pair a worker slot contributes to the reduction: its scan result
when a dataset was assigned (`some p`), and the pair `(INT_MIN, INT_MAX)`
that the `else` branch of both chains stores when the slot is idle. -/
def slot_pair : Option (Int × Int) → Int × Int
  | some p => p
  | none => (INT_MIN, INT_MAX)

/-- All values of a collection of local pairs are 32-bit `int` values. -/
def AllInt (l : List (Int × Int)) : Prop := ∀ p ∈ l, isInt p.1 ∧ isInt p.2

instance (l : List (Int × Int)) : Decidable (AllInt l) := by
  unfold AllInt; infer_instance

/-- The collection `l'` is the collection `l` with identity pairs
`(INT_MIN, INT_MAX)` inserted, any number of them, at any positions. -/
inductive IdleInserted : List (Int × Int) → List (Int × Int) → Prop
  | nil : IdleInserted [] []
  | keep (p : Int × Int) {l l' : List (Int × Int)} :
      IdleInserted l l' → IdleInserted (p :: l) (p :: l')
  | idle {l l' : List (Int × Int)} :
      IdleInserted l l' → IdleInserted l ((INT_MIN, INT_MAX) :: l')

/-- The pair the scan returns on a non-empty list scanned over its whole
length: the accumulators start at the first element and step through the
rest. (The empty list has no scan; the identity pair stands in for it.) -/
def scan_pair : List Int → Int × Int
  | [] => (INT_MIN, INT_MAX)
  | x :: xs => (xs.foldl stepMax x, xs.foldl stepMin x)

/-- The local pair of worker `i` on datasets `d1 d2 d3` scanned over their
whole length: the scan of dataset number `i`, or the identity pair. -/
def assigned_pair (d1 d2 d3 : List Int) (i : Nat) : Int × Int :=
  if i = 0 then scan_pair d1 else if i = 1 then scan_pair d2
  else if i = 2 then scan_pair d3 else (INT_MIN, INT_MAX)

/-! ## Lemmas on the scan -/

theorem scan_loop_append (pre rest : List Int) (mx mn : Int) :
    scan_loop (pre ++ rest) rest.length pre.length mx mn
      = some (rest.foldl stepMax mx, rest.foldl stepMin mn) := by
  induction rest generalizing pre mx mn with
  | nil => simp [scan_loop]
  | cons d rest ih =>
    have h := ih (pre ++ [d]) (stepMax mx d) (stepMin mn d)
    simp only [List.append_assoc, List.singleton_append, List.length_append,
      List.length_singleton] at h
    simp only [List.length_cons, scan_loop, List.foldl_cons]
    rw [List.getElem?_append_right (le_refl _)]
    simpa [stepMax, stepMin] using h

theorem process_dataset_cons (x : Int) (xs : List Int) (a b : Int) :
    process_dataset (x :: xs) ((x :: xs).length : Nat) a b
      = some (xs.foldl stepMax x, xs.foldl stepMin x) := by
  have h := scan_loop_append [x] xs x x
  simp only [List.singleton_append, List.length_singleton] at h
  simp only [process_dataset, List.getElem?_cons_zero, List.length_cons]
  have e : (((xs.length + 1 : Nat) : Int) - 1).toNat = xs.length := by
    push_cast; simp
  rw [e]; exact h

theorem foldl_stepMax_ge (xs : List Int) (a : Int) :
    a ≤ xs.foldl stepMax a ∧ ∀ x ∈ xs, x ≤ xs.foldl stepMax a := by
  induction xs generalizing a with
  | nil => simp
  | cons d xs ih =>
    obtain ⟨h1, h2⟩ := ih (stepMax a d)
    have ha : a ≤ stepMax a d := by unfold stepMax; split <;> omega
    have hd : d ≤ stepMax a d := by unfold stepMax; split <;> omega
    refine ⟨le_trans ha h1, ?_⟩
    intro x hx
    rcases List.mem_cons.1 hx with rfl | hx
    · exact le_trans hd h1
    · exact h2 x hx

theorem foldl_stepMax_mem (xs : List Int) (a : Int) :
    xs.foldl stepMax a = a ∨ xs.foldl stepMax a ∈ xs := by
  induction xs generalizing a with
  | nil => simp
  | cons d xs ih =>
    simp only [List.foldl_cons, List.mem_cons]
    rcases ih (stepMax a d) with h | h
    · rw [h]; unfold stepMax; split <;> simp
    · exact Or.inr (Or.inr h)

theorem foldl_stepMin_le (xs : List Int) (a : Int) :
    xs.foldl stepMin a ≤ a ∧ ∀ x ∈ xs, xs.foldl stepMin a ≤ x := by
  induction xs generalizing a with
  | nil => simp
  | cons d xs ih =>
    obtain ⟨h1, h2⟩ := ih (stepMin a d)
    have ha : stepMin a d ≤ a := by unfold stepMin; split <;> omega
    have hd : stepMin a d ≤ d := by unfold stepMin; split <;> omega
    refine ⟨le_trans h1 ha, ?_⟩
    intro x hx
    rcases List.mem_cons.1 hx with rfl | hx
    · exact le_trans h1 hd
    · exact h2 x hx

theorem foldl_stepMin_mem (xs : List Int) (a : Int) :
    xs.foldl stepMin a = a ∨ xs.foldl stepMin a ∈ xs := by
  induction xs generalizing a with
  | nil => simp
  | cons d xs ih =>
    simp only [List.foldl_cons, List.mem_cons]
    rcases ih (stepMin a d) with h | h
    · rw [h]; unfold stepMin; split <;> simp
    · exact Or.inr (Or.inr h)

theorem isMaxOf_foldl (x : Int) (xs : List Int) :
    IsMaxOf (xs.foldl stepMax x) (x :: xs) := by
  refine ⟨?_, ?_⟩
  · rcases foldl_stepMax_mem xs x with h | h
    · rw [h]; exact List.mem_cons_self _ _
    · exact List.mem_cons_of_mem _ h
  · intro y hy
    rcases List.mem_cons.1 hy with rfl | hy
    · exact (foldl_stepMax_ge xs y).1
    · exact (foldl_stepMax_ge xs x).2 y hy

theorem isMinOf_foldl (x : Int) (xs : List Int) :
    IsMinOf (xs.foldl stepMin x) (x :: xs) := by
  refine ⟨?_, ?_⟩
  · rcases foldl_stepMin_mem xs x with h | h
    · rw [h]; exact List.mem_cons_self _ _
    · exact List.mem_cons_of_mem _ h
  · intro y hy
    rcases List.mem_cons.1 hy with rfl | hy
    · exact (foldl_stepMin_le xs y).1
    · exact (foldl_stepMin_le xs x).2 y hy

theorem process_dataset_omp_eq (dataset : List Int) (size a b : Int) :
    process_dataset_omp dataset size a b = process_dataset dataset size a b := rfl

/-! ## Lemmas on the reduction -/

theorem IsMaxOf.unique_max {m m' : Int} {S : List Int} (h : IsMaxOf m S) (h' : IsMaxOf m' S) :
    m = m' :=
  le_antisymm (h'.2 m h.1) (h.2 m' h'.1)

theorem IsMinOf.unique_min {m m' : Int} {S : List Int} (h : IsMinOf m S) (h' : IsMinOf m' S) :
    m = m' :=
  le_antisymm (h.2 m' h'.1) (h'.2 m h.1)

theorem IsMaxOf.perm_max {m : Int} {S S' : List Int} (h : IsMaxOf m S) (p : S.Perm S') :
    IsMaxOf m S' :=
  ⟨p.mem_iff.1 h.1, fun x hx => h.2 x (p.mem_iff.2 hx)⟩

theorem IsMinOf.perm_min {m : Int} {S S' : List Int} (h : IsMinOf m S) (p : S.Perm S') :
    IsMinOf m S' :=
  ⟨p.mem_iff.1 h.1, fun x hx => h.2 x (p.mem_iff.2 hx)⟩

theorem MPI_MAX_eq_stepMax : MPI_MAX = stepMax := by
  funext a b; unfold MPI_MAX stepMax; split <;> omega

theorem MPI_MIN_eq_stepMin : MPI_MIN = stepMin := by
  funext a b; unfold MPI_MIN stepMin; split <;> omega

theorem MPI_Reduce_MAX_cons (x : Int) (xs : List Int) :
    MPI_Reduce MPI_MAX (x :: xs) = some (xs.foldl stepMax x) := by
  rw [MPI_MAX_eq_stepMax]; rfl

theorem MPI_Reduce_MIN_cons (x : Int) (xs : List Int) :
    MPI_Reduce MPI_MIN (x :: xs) = some (xs.foldl stepMin x) := by
  rw [MPI_MIN_eq_stepMin]; rfl

theorem MPI_Reduce_MAX_eq {m : Int} {S : List Int} (h : IsMaxOf m S) :
    MPI_Reduce MPI_MAX S = some m := by
  cases S with
  | nil => exact absurd h.1 (List.not_mem_nil _)
  | cons x xs => rw [MPI_Reduce_MAX_cons, (isMaxOf_foldl x xs).unique_max h]

theorem MPI_Reduce_MIN_eq {m : Int} {S : List Int} (h : IsMinOf m S) :
    MPI_Reduce MPI_MIN S = some m := by
  cases S with
  | nil => exact absurd h.1 (List.not_mem_nil _)
  | cons x xs => rw [MPI_Reduce_MIN_cons, (isMinOf_foldl x xs).unique_min h]

theorem mpi_combine_eq {mx mn : Int} {l : List (Int × Int)}
    (hmx : IsMaxOf mx (l.map Prod.fst)) (hmn : IsMinOf mn (l.map Prod.snd)) :
    mpi_combine l = some (mx, mn) := by
  unfold mpi_combine
  rw [MPI_Reduce_MAX_eq hmx, MPI_Reduce_MIN_eq hmn]

theorem foldl_critical_update (l : List (Int × Int)) (g : Int × Int) :
    l.foldl critical_update g
      = ((l.map Prod.fst).foldl stepMax g.1, (l.map Prod.snd).foldl stepMin g.2) := by
  induction l generalizing g with
  | nil => rfl
  | cons p l ih => simp only [List.foldl_cons, List.map_cons, ih]; rfl

theorem omp_combine_fst (l : List (Int × Int)) :
    IsMaxOf (omp_combine l).1 (INT_MIN :: l.map Prod.fst) := by
  unfold omp_combine; rw [foldl_critical_update]; exact isMaxOf_foldl _ _

theorem omp_combine_snd (l : List (Int × Int)) :
    IsMinOf (omp_combine l).2 (INT_MAX :: l.map Prod.snd) := by
  unfold omp_combine; rw [foldl_critical_update]; exact isMinOf_foldl _ _

theorem omp_combine_eq {mx mn : Int} {l : List (Int × Int)}
    (hmx : IsMaxOf mx (INT_MIN :: l.map Prod.fst))
    (hmn : IsMinOf mn (INT_MAX :: l.map Prod.snd)) :
    omp_combine l = (mx, mn) :=
  Prod.ext ((omp_combine_fst l).unique_max hmx) ((omp_combine_snd l).unique_min hmn)

/-- With a real value present, the identity `INT_MIN` in front changes nothing. -/
theorem IsMaxOf.cons_INT_MIN {m : Int} {S : List Int} (h : IsMaxOf m S)
    (hS : ∀ x ∈ S, INT_MIN ≤ x) : IsMaxOf m (INT_MIN :: S) :=
  ⟨List.mem_cons_of_mem _ h.1, fun x hx => by
    rcases List.mem_cons.1 hx with rfl | hx
    · exact hS m h.1
    · exact h.2 x hx⟩

theorem IsMinOf.cons_INT_MAX {m : Int} {S : List Int} (h : IsMinOf m S)
    (hS : ∀ x ∈ S, x ≤ INT_MAX) : IsMinOf m (INT_MAX :: S) :=
  ⟨List.mem_cons_of_mem _ h.1, fun x hx => by
    rcases List.mem_cons.1 hx with rfl | hx
    · exact hS m h.1
    · exact h.2 x hx⟩

theorem IsMaxOf.of_cons_INT_MIN {m : Int} {S : List Int} (h : IsMaxOf m (INT_MIN :: S))
    (hne : S ≠ []) (hS : ∀ x ∈ S, INT_MIN ≤ x) : IsMaxOf m S := by
  refine ⟨?_, fun x hx => h.2 x (List.mem_cons_of_mem _ hx)⟩
  rcases List.mem_cons.1 h.1 with e | hm
  · obtain ⟨y, hy⟩ := List.exists_mem_of_ne_nil S hne
    have h1 := h.2 y (List.mem_cons_of_mem _ hy)
    have h2 := hS y hy
    have : y = m := by omega
    exact this ▸ hy
  · exact hm

theorem IsMinOf.of_cons_INT_MAX {m : Int} {S : List Int} (h : IsMinOf m (INT_MAX :: S))
    (hne : S ≠ []) (hS : ∀ x ∈ S, x ≤ INT_MAX) : IsMinOf m S := by
  refine ⟨?_, fun x hx => h.2 x (List.mem_cons_of_mem _ hx)⟩
  rcases List.mem_cons.1 h.1 with e | hm
  · obtain ⟨y, hy⟩ := List.exists_mem_of_ne_nil S hne
    have h1 := h.2 y (List.mem_cons_of_mem _ hy)
    have h2 := hS y hy
    have : y = m := by omega
    exact this ▸ hy
  · exact hm

/-! ## Lemmas on the assignment -/

theorem collect_map_some (f : Nat → Option (Int × Int)) (g : Nat → Int × Int) (l : List Nat)
    (h : ∀ i ∈ l, f i = some (g i)) : collect (l.map f) = some (l.map g) := by
  induction l with
  | nil => rfl
  | cons i l ih =>
    have hi := h i (List.mem_cons_self _ _)
    have hl := ih (fun j hj => h j (List.mem_cons_of_mem _ hj))
    simp only [List.map_cons, hi, collect, hl]

theorem omp_local_eq (i : Nat) : omp_local i = some (expected_local i) := by
  unfold omp_local omp_local_on expected_local
  by_cases h0 : i = 0
  · subst h0; decide
  by_cases h1 : i = 1
  · subst h1; decide
  by_cases h2 : i = 2
  · subst h2; decide
  simp [h0, h1, h2]

theorem mpi_local_eq_omp_local_on (d1 d2 d3 : List Int) (n : Int) (i w : Nat) (hi : i < w) :
    mpi_local_on d1 d2 d3 n i w = omp_local_on d1 d2 d3 n i := by
  unfold mpi_local_on omp_local_on
  by_cases h0 : i = 0
  · simp [h0, process_dataset_omp_eq]
  by_cases h1 : i = 1
  · have : w > 1 := by omega
    simp [h1, this, process_dataset_omp_eq]
  by_cases h2 : i = 2
  · have : w > 2 := by omega
    simp [h2, this, process_dataset_omp_eq]
  simp [h0, h1, h2]

theorem mpi_local_eq (i w : Nat) (hi : i < w) : mpi_local i w = some (expected_local i) := by
  unfold mpi_local
  rw [mpi_local_eq_omp_local_on _ _ _ _ _ _ hi]
  exact omp_local_eq i

theorem expected_local_fst_le (i : Nat) : (expected_local i).1 ≤ 96 := by
  unfold expected_local; split_ifs <;> decide

theorem expected_local_snd_ge (i : Nat) : 15 ≤ (expected_local i).2 := by
  unfold expected_local; split_ifs <;> decide

theorem expected_local_isInt (i : Nat) :
    isInt (expected_local i).1 ∧ isInt (expected_local i).2 := by
  unfold expected_local; split_ifs <;> decide

theorem isMaxOf_expected (l : List Nat) (h2 : 2 ∈ l) :
    IsMaxOf 96 ((l.map expected_local).map Prod.fst) := by
  refine ⟨?_, ?_⟩
  · exact List.mem_map.2 ⟨expected_local 2, List.mem_map.2 ⟨2, h2, rfl⟩, rfl⟩
  · intro x hx
    obtain ⟨p, hp, rfl⟩ := List.mem_map.1 hx
    obtain ⟨i, _, rfl⟩ := List.mem_map.1 hp
    exact expected_local_fst_le i

theorem isMinOf_expected (l : List Nat) (h1 : 1 ∈ l) :
    IsMinOf 15 ((l.map expected_local).map Prod.snd) := by
  refine ⟨?_, ?_⟩
  · exact List.mem_map.2 ⟨expected_local 1, List.mem_map.2 ⟨1, h1, rfl⟩, rfl⟩
  · intro x hx
    obtain ⟨p, hp, rfl⟩ := List.mem_map.1 hx
    obtain ⟨i, _, rfl⟩ := List.mem_map.1 hp
    exact expected_local_snd_ge i

theorem expected_map_isInt (l : List Nat) :
    (∀ x ∈ (l.map expected_local).map Prod.fst, INT_MIN ≤ x)
      ∧ ∀ x ∈ (l.map expected_local).map Prod.snd, x ≤ INT_MAX := by
  constructor
  · intro x hx
    obtain ⟨p, hp, rfl⟩ := List.mem_map.1 hx
    obtain ⟨i, _, rfl⟩ := List.mem_map.1 hp
    exact (expected_local_isInt i).1.1
  · intro x hx
    obtain ⟨p, hp, rfl⟩ := List.mem_map.1 hx
    obtain ⟨i, _, rfl⟩ := List.mem_map.1 hp
    exact (expected_local_isInt i).2.2

theorem mpi_main_eq (w : Nat) :
    mpi_main w = match mpi_combine ((List.range w).map expected_local) with
      | none => none
      | some (gmax, gmin) => some (gmax, gmin, int_sub gmax gmin) := by
  unfold mpi_main mpi_main_on
  rw [collect_map_some (fun rank => mpi_local_on dataset1 dataset2 dataset3 data_size rank w)
    expected_local (List.range w) (fun i hi => mpi_local_eq i w (List.mem_range.1 hi))]

theorem omp_main_eq (order : List Nat) :
    omp_main order = some ((omp_combine (order.map expected_local)).1,
      (omp_combine (order.map expected_local)).2,
      int_sub (omp_combine (order.map expected_local)).1
        (omp_combine (order.map expected_local)).2) := by
  unfold omp_main omp_main_on
  rw [collect_map_some (fun thread_id => omp_local_on dataset1 dataset2 dataset3 data_size thread_id)
    expected_local order (fun i _ => omp_local_eq i)]

theorem IsMaxOf.max_of_mem_iff {m : Int} {S S' : List Int} (h : IsMaxOf m S)
    (e : ∀ x, x ∈ S ↔ x ∈ S') : IsMaxOf m S' :=
  ⟨(e m).1 h.1, fun x hx => h.2 x ((e x).2 hx)⟩

theorem IsMinOf.min_of_mem_iff {m : Int} {S S' : List Int} (h : IsMinOf m S)
    (e : ∀ x, x ∈ S ↔ x ∈ S') : IsMinOf m S' :=
  ⟨(e m).1 h.1, fun x hx => h.2 x ((e x).2 hx)⟩

theorem omp_combine_perm {l l' : List (Int × Int)} (h : l.Perm l') :
    omp_combine l = omp_combine l' :=
  Prod.ext
    (((omp_combine_fst l).perm_max ((h.map Prod.fst).cons INT_MIN)).unique_max (omp_combine_fst l'))
    (((omp_combine_snd l).perm_min ((h.map Prod.snd).cons INT_MAX)).unique_min (omp_combine_snd l'))

theorem MPI_Reduce_MAX_perm {S S' : List Int} (h : S.Perm S') :
    MPI_Reduce MPI_MAX S = MPI_Reduce MPI_MAX S' := by
  cases S with
  | nil => rw [List.Perm.nil_eq h]
  | cons x xs =>
    rw [MPI_Reduce_MAX_cons]
    exact (MPI_Reduce_MAX_eq ((isMaxOf_foldl x xs).perm_max h)).symm

theorem MPI_Reduce_MIN_perm {S S' : List Int} (h : S.Perm S') :
    MPI_Reduce MPI_MIN S = MPI_Reduce MPI_MIN S' := by
  cases S with
  | nil => rw [List.Perm.nil_eq h]
  | cons x xs =>
    rw [MPI_Reduce_MIN_cons]
    exact (MPI_Reduce_MIN_eq ((isMinOf_foldl x xs).perm_min h)).symm

theorem mpi_combine_perm {l l' : List (Int × Int)} (h : l.Perm l') :
    mpi_combine l = mpi_combine l' := by
  unfold mpi_combine
  rw [MPI_Reduce_MAX_perm (h.map Prod.fst), MPI_Reduce_MIN_perm (h.map Prod.snd)]

theorem AllInt.fst_ge {l : List (Int × Int)} (h : AllInt l) :
    ∀ x ∈ l.map Prod.fst, INT_MIN ≤ x := by
  intro x hx
  obtain ⟨p, hp, rfl⟩ := List.mem_map.1 hx
  exact (h p hp).1.1

theorem AllInt.snd_le {l : List (Int × Int)} (h : AllInt l) :
    ∀ x ∈ l.map Prod.snd, x ≤ INT_MAX := by
  intro x hx
  obtain ⟨p, hp, rfl⟩ := List.mem_map.1 hx
  exact (h p hp).2.2

/-- On a non-empty collection of `int` pairs the two combines agree. -/
theorem mpi_combine_eq_omp_combine {l : List (Int × Int)} (hl : l ≠ []) (h : AllInt l) :
    mpi_combine l = some (omp_combine l) := by
  have n1 : l.map Prod.fst ≠ [] := by simpa using hl
  have n2 : l.map Prod.snd ≠ [] := by simpa using hl
  exact mpi_combine_eq ((omp_combine_fst l).of_cons_INT_MIN n1 h.fst_ge)
    ((omp_combine_snd l).of_cons_INT_MAX n2 h.snd_le)

theorem expected_allInt (l : List Nat) : AllInt (l.map expected_local) := by
  intro p hp
  obtain ⟨i, _, rfl⟩ := List.mem_map.1 hp
  exact expected_local_isInt i

theorem mpi_main_ge_three (w : Nat) (hw : 3 ≤ w) : mpi_main w = some (96, 15, 81) := by
  have m2 : 2 ∈ List.range w := List.mem_range.2 (by omega)
  have m1 : 1 ∈ List.range w := List.mem_range.2 (by omega)
  rw [mpi_main_eq, mpi_combine_eq (isMaxOf_expected _ m2) (isMinOf_expected _ m1)]
  rfl

theorem omp_main_ge_three (w : Nat) (hw : 3 ≤ w) (order : List Nat)
    (ho : order.Perm (List.range w)) : omp_main order = some (96, 15, 81) := by
  have m2 : 2 ∈ List.range w := List.mem_range.2 (by omega)
  have m1 : 1 ∈ List.range w := List.mem_range.2 (by omega)
  have hI := expected_map_isInt order
  rw [omp_main_eq, omp_combine_eq
    ((isMaxOf_expected order (ho.mem_iff.2 m2)).cons_INT_MIN hI.1)
    ((isMinOf_expected order (ho.mem_iff.2 m1)).cons_INT_MAX hI.2)]
  rfl

theorem mpi_main_eq_omp_main (w : Nat) (hw : 1 ≤ w) (order : List Nat)
    (ho : order.Perm (List.range w)) : mpi_main w = omp_main order := by
  have hne : (List.range w).map expected_local ≠ [] := by
    cases w with
    | zero => omega
    | succ k => simp [List.range_succ]
  rw [mpi_main_eq, omp_main_eq, mpi_combine_eq_omp_combine hne (expected_allInt _),
    omp_combine_perm (ho.map expected_local)]

theorem IdleInserted.mem_iff {l l' : List (Int × Int)} (h : IdleInserted l l') (p : Int × Int) :
    p ∈ (INT_MIN, INT_MAX) :: l' ↔ p ∈ (INT_MIN, INT_MAX) :: l := by
  induction h with
  | nil => exact Iff.rfl
  | keep q _ ih =>
    simp only [List.mem_cons] at ih ⊢
    constructor
    · rintro (h | h | h)
      · exact Or.inl h
      · exact Or.inr (Or.inl h)
      · rcases ih.1 (Or.inr h) with h | h
        · exact Or.inl h
        · exact Or.inr (Or.inr h)
    · rintro (h | h | h)
      · exact Or.inl h
      · exact Or.inr (Or.inl h)
      · rcases ih.2 (Or.inr h) with h | h
        · exact Or.inl h
        · exact Or.inr (Or.inr h)
  | idle _ ih =>
    simp only [List.mem_cons] at ih ⊢
    constructor
    · rintro (h | h | h)
      · exact Or.inl h
      · exact Or.inl h
      · exact ih.1 (Or.inr h)
    · rintro (h | h)
      · exact Or.inl h
      · rcases ih.2 (Or.inr h) with h | h
        · exact Or.inl h
        · exact Or.inr (Or.inr h)

theorem IdleInserted.ne_nil {l l' : List (Int × Int)} (h : IdleInserted l l') (hl : l ≠ []) :
    l' ≠ [] := by
  cases h with
  | nil => exact absurd rfl hl
  | keep q _ => exact List.cons_ne_nil _ _
  | idle _ => exact List.cons_ne_nil _ _

theorem IdleInserted.allInt {l l' : List (Int × Int)} (h : IdleInserted l l') (hl : AllInt l) :
    AllInt l' := by
  intro p hp
  rcases List.mem_cons.1 ((h.mem_iff p).1 (List.mem_cons_of_mem _ hp)) with e | hp
  · rw [e]; decide
  · exact hl p hp

theorem IdleInserted.omp_combine_same {l l' : List (Int × Int)} (h : IdleInserted l l') :
    omp_combine l' = omp_combine l := by
  refine Prod.ext (((omp_combine_fst l).max_of_mem_iff ?_).unique_max (omp_combine_fst l')).symm
    (((omp_combine_snd l).min_of_mem_iff ?_).unique_min (omp_combine_snd l')).symm
  · intro x
    have e : ∀ k : List (Int × Int),
        INT_MIN :: k.map Prod.fst = (((INT_MIN, INT_MAX) :: k).map Prod.fst) := fun _ => rfl
    rw [e, e]
    simp only [List.mem_map]
    constructor
    · rintro ⟨p, hp, rfl⟩; exact ⟨p, (h.mem_iff p).2 hp, rfl⟩
    · rintro ⟨p, hp, rfl⟩; exact ⟨p, (h.mem_iff p).1 hp, rfl⟩
  · intro x
    have e : ∀ k : List (Int × Int),
        INT_MAX :: k.map Prod.snd = (((INT_MIN, INT_MAX) :: k).map Prod.snd) := fun _ => rfl
    rw [e, e]
    simp only [List.mem_map]
    constructor
    · rintro ⟨p, hp, rfl⟩; exact ⟨p, (h.mem_iff p).2 hp, rfl⟩
    · rintro ⟨p, hp, rfl⟩; exact ⟨p, (h.mem_iff p).1 hp, rfl⟩

theorem slot_pair_allInt (slots : List (Option (Int × Int)))
    (hint : ∀ p, some p ∈ slots → isInt p.1 ∧ isInt p.2) : AllInt (slots.map slot_pair) := by
  intro q hq
  obtain ⟨s, hs, rfl⟩ := List.mem_map.1 hq
  cases s with
  | none => decide
  | some p => exact hint p hs

/-! ## Further lemmas on the scan and on repeated reduction -/

theorem process_dataset_eq_scan_pair (S : List Int) (a b : Int) (hS : S ≠ []) :
    process_dataset S (S.length : Nat) a b = some (scan_pair S) := by
  cases S with
  | nil => exact absurd rfl hS
  | cons x xs => exact process_dataset_cons x xs a b

theorem scan_pair_isMaxOf (S : List Int) (hS : S ≠ []) : IsMaxOf (scan_pair S).1 S := by
  cases S with
  | nil => exact absurd rfl hS
  | cons x xs => exact isMaxOf_foldl x xs

theorem scan_pair_isMinOf (S : List Int) (hS : S ≠ []) : IsMinOf (scan_pair S).2 S := by
  cases S with
  | nil => exact absurd rfl hS
  | cons x xs => exact isMinOf_foldl x xs

theorem foldl_stepMax_of_le (xs : List Int) (m : Int) (h : ∀ x ∈ xs, x ≤ m) :
    xs.foldl stepMax m = m := by
  induction xs with
  | nil => rfl
  | cons d xs ih =>
    have hd : stepMax m d = m := by
      have := h d (List.mem_cons_self _ _)
      unfold stepMax; split <;> omega
    rw [List.foldl_cons, hd]
    exact ih (fun x hx => h x (List.mem_cons_of_mem _ hx))

theorem foldl_stepMin_of_ge (xs : List Int) (m : Int) (h : ∀ x ∈ xs, m ≤ x) :
    xs.foldl stepMin m = m := by
  induction xs with
  | nil => rfl
  | cons d xs ih =>
    have hd : stepMin m d = m := by
      have := h d (List.mem_cons_self _ _)
      unfold stepMin; split <;> omega
    rw [List.foldl_cons, hd]
    exact ih (fun x hx => h x (List.mem_cons_of_mem _ hx))

theorem foldl_critical_update_again (l : List (Int × Int)) :
    l.foldl critical_update (omp_combine l) = omp_combine l := by
  rw [foldl_critical_update]
  refine Prod.ext ?_ ?_
  · exact foldl_stepMax_of_le _ _
      (fun x hx => (omp_combine_fst l).2 x (List.mem_cons_of_mem _ hx))
  · exact foldl_stepMin_of_ge _ _
      (fun x hx => (omp_combine_snd l).2 x (List.mem_cons_of_mem _ hx))

theorem mpi_combine_append_self (l : List (Int × Int)) :
    mpi_combine (l ++ l) = mpi_combine l := by
  cases l with
  | nil => rfl
  | cons p ps =>
    have hmax : IsMaxOf ((ps.map Prod.fst).foldl stepMax p.1) ((p :: ps).map Prod.fst) :=
      isMaxOf_foldl _ _
    have hmin : IsMinOf ((ps.map Prod.snd).foldl stepMin p.2) ((p :: ps).map Prod.snd) :=
      isMinOf_foldl _ _
    rw [mpi_combine_eq hmax hmin]
    exact mpi_combine_eq
      (hmax.max_of_mem_iff (fun x => by rw [List.map_append, List.mem_append, or_self]))
      (hmin.min_of_mem_iff (fun x => by rw [List.map_append, List.mem_append, or_self]))

theorem isMaxOf_append {ma mb : Int} {A B : List Int} (hA : IsMaxOf ma A) (hB : IsMaxOf mb B) :
    IsMaxOf (max ma mb) (A ++ B) := by
  refine ⟨?_, ?_⟩
  · rcases le_total ma mb with h | h
    · rw [max_eq_right h]; exact List.mem_append_right _ hB.1
    · rw [max_eq_left h]; exact List.mem_append_left _ hA.1
  · intro x hx
    rcases List.mem_append.1 hx with hx | hx
    · exact le_trans (hA.2 x hx) (le_max_left _ _)
    · exact le_trans (hB.2 x hx) (le_max_right _ _)

theorem isMinOf_append {na nb : Int} {A B : List Int} (hA : IsMinOf na A) (hB : IsMinOf nb B) :
    IsMinOf (min na nb) (A ++ B) := by
  refine ⟨?_, ?_⟩
  · rcases le_total na nb with h | h
    · rw [min_eq_left h]; exact List.mem_append_left _ hA.1
    · rw [min_eq_right h]; exact List.mem_append_right _ hB.1
  · intro x hx
    rcases List.mem_append.1 hx with hx | hx
    · exact le_trans (min_le_left _ _) (hA.2 x hx)
    · exact le_trans (min_le_right _ _) (hB.2 x hx)

theorem scan_pair_append (A B : List Int) (hA : A ≠ []) (hB : B ≠ []) :
    scan_pair (A ++ B)
      = (max (scan_pair A).1 (scan_pair B).1, min (scan_pair A).2 (scan_pair B).2) := by
  have hAB : A ++ B ≠ [] := by simp [hA]
  exact Prod.ext
    ((scan_pair_isMaxOf _ hAB).unique_max
      (isMaxOf_append (scan_pair_isMaxOf A hA) (scan_pair_isMaxOf B hB)))
    ((scan_pair_isMinOf _ hAB).unique_min
      (isMinOf_append (scan_pair_isMinOf A hA) (scan_pair_isMinOf B hB)))

theorem ne_nil_of_mem_iff {S T : List Int} (hS : S ≠ []) (h : ∀ x, x ∈ T ↔ x ∈ S) : T ≠ [] := by
  obtain ⟨y, hy⟩ := List.exists_mem_of_ne_nil S hS
  exact List.ne_nil_of_mem ((h y).2 hy)

theorem scan_pair_congr {S T : List Int} (hS : S ≠ []) (h : ∀ x, x ∈ T ↔ x ∈ S) :
    scan_pair T = scan_pair S :=
  Prod.ext
    (((scan_pair_isMaxOf T (ne_nil_of_mem_iff hS h)).max_of_mem_iff h).unique_max
      (scan_pair_isMaxOf S hS))
    (((scan_pair_isMinOf T (ne_nil_of_mem_iff hS h)).min_of_mem_iff h).unique_min
      (scan_pair_isMinOf S hS))

theorem process_dataset_all_datasets (a b : Int) :
    process_dataset (dataset1 ++ dataset2 ++ dataset3) 30 a b = some (96, 15) := by
  have h := process_dataset_eq_scan_pair (dataset1 ++ dataset2 ++ dataset3) a b
    (by simp [dataset1])
  have hl : (((dataset1 ++ dataset2 ++ dataset3).length : Nat) : Int) = 30 := by
    simp [dataset1, dataset2, dataset3]
  have e : scan_pair (dataset1 ++ dataset2 ++ dataset3) = (96, 15) := by
    simp [dataset1, dataset2, dataset3, scan_pair, stepMax, stepMin]
  rw [hl, e] at h
  exact h

/-! ## Lemmas on the programs run on arbitrary datasets -/

theorem omp_local_on_eq (d1 d2 d3 : List Int) (n : Nat) (hn : 1 ≤ n) (h1 : d1.length = n)
    (h2 : d2.length = n) (h3 : d3.length = n) (i : Nat) :
    omp_local_on d1 d2 d3 (n : Int) i = some (assigned_pair d1 d2 d3 i) := by
  have key : ∀ d : List Int, d.length = n → ∀ a b,
      process_dataset_omp d (n : Int) a b = some (scan_pair d) := by
    intro d hd a b
    have hne : d ≠ [] := by
      intro e; rw [e] at hd; simp at hd; omega
    rw [process_dataset_omp_eq, ← hd]
    exact process_dataset_eq_scan_pair d a b hne
  unfold omp_local_on assigned_pair
  dsimp only
  split_ifs
  · exact key d1 h1 _ _
  · exact key d2 h2 _ _
  · exact key d3 h3 _ _
  · rfl

theorem mpi_main_on_eq (d1 d2 d3 : List Int) (n : Nat) (hn : 1 ≤ n) (h1 : d1.length = n)
    (h2 : d2.length = n) (h3 : d3.length = n) (w : Nat) :
    mpi_main_on d1 d2 d3 (n : Int) w
      = match mpi_combine ((List.range w).map (assigned_pair d1 d2 d3)) with
        | none => none
        | some (gmax, gmin) => some (gmax, gmin, int_sub gmax gmin) := by
  unfold mpi_main_on
  rw [collect_map_some (fun rank => mpi_local_on d1 d2 d3 (n : Int) rank w)
    (assigned_pair d1 d2 d3) (List.range w) (fun i hi =>
      (mpi_local_eq_omp_local_on d1 d2 d3 (n : Int) i w (List.mem_range.1 hi)).trans
        (omp_local_on_eq d1 d2 d3 n hn h1 h2 h3 i))]

theorem omp_main_on_eq (d1 d2 d3 : List Int) (n : Nat) (hn : 1 ≤ n) (h1 : d1.length = n)
    (h2 : d2.length = n) (h3 : d3.length = n) (order : List Nat) :
    omp_main_on d1 d2 d3 (n : Int) order
      = some ((omp_combine (order.map (assigned_pair d1 d2 d3))).1,
          (omp_combine (order.map (assigned_pair d1 d2 d3))).2,
          int_sub (omp_combine (order.map (assigned_pair d1 d2 d3))).1
            (omp_combine (order.map (assigned_pair d1 d2 d3))).2) := by
  unfold omp_main_on
  rw [collect_map_some (fun thread_id => omp_local_on d1 d2 d3 (n : Int) thread_id)
    (assigned_pair d1 d2 d3) order (fun i _ => omp_local_on_eq d1 d2 d3 n hn h1 h2 h3 i)]

theorem assigned_pair_allInt (d1 d2 d3 : List Int) (hd1 : d1 ≠ []) (hd2 : d2 ≠ [])
    (hd3 : d3 ≠ []) (hint : ∀ x ∈ d1 ++ d2 ++ d3, isInt x) (l : List Nat) :
    AllInt (l.map (assigned_pair d1 d2 d3)) := by
  intro p hp
  obtain ⟨i, _, rfl⟩ := List.mem_map.1 hp
  unfold assigned_pair
  split_ifs
  · exact ⟨hint _ (by simp [(scan_pair_isMaxOf d1 hd1).1]),
      hint _ (by simp [(scan_pair_isMinOf d1 hd1).1])⟩
  · exact ⟨hint _ (by simp [(scan_pair_isMaxOf d2 hd2).1]),
      hint _ (by simp [(scan_pair_isMinOf d2 hd2).1])⟩
  · exact ⟨hint _ (by simp [(scan_pair_isMaxOf d3 hd3).1]),
      hint _ (by simp [(scan_pair_isMinOf d3 hd3).1])⟩
  · decide

theorem assigned_pair_fst_mem (d1 d2 d3 : List Int) (hd1 : d1 ≠ []) (hd2 : d2 ≠ [])
    (hd3 : d3 ≠ []) (i : Nat) :
    (assigned_pair d1 d2 d3 i).1 ∈ d1 ++ d2 ++ d3 ∨ (assigned_pair d1 d2 d3 i).1 = INT_MIN := by
  unfold assigned_pair
  split_ifs
  · exact Or.inl (by simp [(scan_pair_isMaxOf d1 hd1).1])
  · exact Or.inl (by simp [(scan_pair_isMaxOf d2 hd2).1])
  · exact Or.inl (by simp [(scan_pair_isMaxOf d3 hd3).1])
  · exact Or.inr rfl

theorem assigned_pair_snd_mem (d1 d2 d3 : List Int) (hd1 : d1 ≠ []) (hd2 : d2 ≠ [])
    (hd3 : d3 ≠ []) (i : Nat) :
    (assigned_pair d1 d2 d3 i).2 ∈ d1 ++ d2 ++ d3 ∨ (assigned_pair d1 d2 d3 i).2 = INT_MAX := by
  unfold assigned_pair
  split_ifs
  · exact Or.inl (by simp [(scan_pair_isMinOf d1 hd1).1])
  · exact Or.inl (by simp [(scan_pair_isMinOf d2 hd2).1])
  · exact Or.inl (by simp [(scan_pair_isMinOf d3 hd3).1])
  · exact Or.inr rfl

/-- With worker 0 among the workers, the combined pair consists of dataset
elements and its minimum is at most its maximum. -/
theorem omp_combine_assigned (d1 d2 d3 : List Int) (hd1 : d1 ≠ []) (hd2 : d2 ≠ [])
    (hd3 : d3 ≠ []) (hint : ∀ x ∈ d1 ++ d2 ++ d3, isInt x) (l : List Nat) (h0 : 0 ∈ l) :
    (omp_combine (l.map (assigned_pair d1 d2 d3))).1 ∈ d1 ++ d2 ++ d3
      ∧ (omp_combine (l.map (assigned_pair d1 d2 d3))).2 ∈ d1 ++ d2 ++ d3
      ∧ (omp_combine (l.map (assigned_pair d1 d2 d3))).2
          ≤ (omp_combine (l.map (assigned_pair d1 d2 d3))).1 := by
  have hmax := omp_combine_fst (l.map (assigned_pair d1 d2 d3))
  have hmin := omp_combine_snd (l.map (assigned_pair d1 d2 d3))
  have hp0 : scan_pair d1 ∈ l.map (assigned_pair d1 d2 d3) :=
    List.mem_map.2 ⟨0, h0, rfl⟩
  have bmax := hmax.2 _ (List.mem_cons_of_mem _ (List.mem_map.2 ⟨_, hp0, rfl⟩))
  have bmin := hmin.2 _ (List.mem_cons_of_mem _ (List.mem_map.2 ⟨_, hp0, rfl⟩))
  have m1 : (scan_pair d1).1 ∈ d1 ++ d2 ++ d3 := by simp [(scan_pair_isMaxOf d1 hd1).1]
  have m2 : (scan_pair d1).2 ∈ d1 ++ d2 ++ d3 := by simp [(scan_pair_isMinOf d1 hd1).1]
  have i1 := (hint _ m1).1
  have i2 := (hint _ m2).2
  have ord := (scan_pair_isMaxOf d1 hd1).2 _ (scan_pair_isMinOf d1 hd1).1
  refine ⟨?_, ?_, le_trans bmin (le_trans ord bmax)⟩
  · have atIdle : (omp_combine (l.map (assigned_pair d1 d2 d3))).1 = INT_MIN →
        (omp_combine (l.map (assigned_pair d1 d2 d3))).1 ∈ d1 ++ d2 ++ d3 := by
      intro e
      have : (omp_combine (l.map (assigned_pair d1 d2 d3))).1 = (scan_pair d1).1 :=
        le_antisymm (e ▸ i1) bmax
      rw [this]; exact m1
    rcases List.mem_cons.1 hmax.1 with e | hm
    · exact atIdle e
    · obtain ⟨q, hq, e⟩ := List.mem_map.1 hm
      obtain ⟨i, _, rfl⟩ := List.mem_map.1 hq
      rcases assigned_pair_fst_mem d1 d2 d3 hd1 hd2 hd3 i with h | h
      · rw [← e]; exact h
      · exact atIdle (e.symm.trans h)
  · have atIdle : (omp_combine (l.map (assigned_pair d1 d2 d3))).2 = INT_MAX →
        (omp_combine (l.map (assigned_pair d1 d2 d3))).2 ∈ d1 ++ d2 ++ d3 := by
      intro e
      have : (omp_combine (l.map (assigned_pair d1 d2 d3))).2 = (scan_pair d1).2 :=
        le_antisymm bmin (e ▸ i2)
      rw [this]; exact m2
    rcases List.mem_cons.1 hmin.1 with e | hm
    · exact atIdle e
    · obtain ⟨q, hq, e⟩ := List.mem_map.1 hm
      obtain ⟨i, _, rfl⟩ := List.mem_map.1 hq
      rcases assigned_pair_snd_mem d1 d2 d3 hd1 hd2 hd3 i with h | h
      · rw [← e]; exact h
      · exact atIdle (e.symm.trans h)

theorem main_on_spec (d1 d2 d3 : List Int) (n : Nat) (hn : 1 ≤ n) (h1 : d1.length = n)
    (h2 : d2.length = n) (h3 : d3.length = n) (hint : ∀ x ∈ d1 ++ d2 ++ d3, isInt x)
    (w : Nat) (hw : 1 ≤ w) (order : List Nat) (ho : order.Perm (List.range w)) :
    ∃ gmax gmin, mpi_main_on d1 d2 d3 (n : Int) w = some (gmax, gmin, int_sub gmax gmin)
      ∧ omp_main_on d1 d2 d3 (n : Int) order = some (gmax, gmin, int_sub gmax gmin)
      ∧ gmax ∈ d1 ++ d2 ++ d3 ∧ gmin ∈ d1 ++ d2 ++ d3 ∧ gmin ≤ gmax := by
  have ne : ∀ d : List Int, d.length = n → d ≠ [] := by
    intro d hd e; rw [e] at hd; simp at hd; omega
  have h0 : 0 ∈ order := ho.mem_iff.2 (List.mem_range.2 (by omega))
  have hne : (List.range w).map (assigned_pair d1 d2 d3) ≠ [] := by
    cases w with
    | zero => omega
    | succ k => simp [List.range_succ]
  have hall := assigned_pair_allInt d1 d2 d3 (ne d1 h1) (ne d2 h2) (ne d3 h3) hint (List.range w)
  have hperm : omp_combine ((List.range w).map (assigned_pair d1 d2 d3))
      = omp_combine (order.map (assigned_pair d1 d2 d3)) :=
    omp_combine_perm ((ho.map (assigned_pair d1 d2 d3)).symm)
  obtain ⟨m1, m2, m3⟩ :=
    omp_combine_assigned d1 d2 d3 (ne d1 h1) (ne d2 h2) (ne d3 h3) hint order h0
  refine ⟨(omp_combine (order.map (assigned_pair d1 d2 d3))).1,
    (omp_combine (order.map (assigned_pair d1 d2 d3))).2, ?_,
    omp_main_on_eq d1 d2 d3 n hn h1 h2 h3 order, m1, m2, m3⟩
  rw [mpi_main_on_eq d1 d2 d3 n hn h1 h2 h3 w, mpi_combine_eq_omp_combine hne hall, hperm]

theorem int_sub_eq (a b : Int) (h : isInt (a - b)) : int_sub a b = a - b := by
  obtain ⟨h1, h2⟩ := h
  unfold INT_MIN at h1
  unfold INT_MAX at h2
  unfold int_sub
  omega

theorem datasets_bounds : ∀ x ∈ dataset1 ++ dataset2 ++ dataset3, 15 ≤ x ∧ x ≤ 96 := by
  intro x hx
  simp only [dataset1, dataset2, dataset3, List.cons_append, List.nil_append, List.mem_cons,
    List.mem_singleton, List.not_mem_nil, or_false] at hx
  omega

/-! ## The claims -/

/-- C1: for every non-empty sequence `S` of integers (32-bit ones in
particular), scanned with `size` equal to its length, `process_dataset` and
`process_dataset_omp` return a pair `(max, min)` in which `max` is an element
of `S` that no element exceeds and `min` is an element of `S` that no element
is below, whatever the output cells held before. -/
theorem C1_scan_true_extrema (S : List Int) (a b : Int) (hS : S ≠ []) :
    ∃ mx mn, process_dataset S (S.length : Nat) a b = some (mx, mn)
      ∧ process_dataset_omp S (S.length : Nat) a b = some (mx, mn)
      ∧ IsMaxOf mx S ∧ IsMinOf mn S := by
  cases S with
  | nil => exact absurd rfl hS
  | cons x xs =>
    refine ⟨xs.foldl stepMax x, xs.foldl stepMin x, ?_, ?_, ?_, ?_⟩
    · exact process_dataset_cons x xs a b
    · rw [process_dataset_omp_eq]; exact process_dataset_cons x xs a b
    · exact isMaxOf_foldl x xs
    · exact isMinOf_foldl x xs

theorem C1_scan_true_extrema_witness :
    ([3, -7, 12, 3] : List Int) ≠ []
      ∧ ∃ mx mn, process_dataset [3, -7, 12, 3] (([3, -7, 12, 3] : List Int).length : Nat) 0 0
          = some (mx, mn)
        ∧ process_dataset_omp [3, -7, 12, 3] (([3, -7, 12, 3] : List Int).length : Nat) 0 0
          = some (mx, mn)
        ∧ IsMaxOf mx [3, -7, 12, 3] ∧ IsMinOf mn [3, -7, 12, 3] :=
  ⟨by decide, C1_scan_true_extrema [3, -7, 12, 3] 0 0 (by decide)⟩

/-- C2: with the three compiled-in datasets and any number `w ≥ 3` of
workers, the local results are `(91, 23)`, `(92, 15)` and `(96, 19)` (in the
scan itself and in the chains of both programs), the MPI program reports
maximum 96, minimum 15, range 81, and so does the OpenMP program for every
order in which its `w` threads enter the critical section. -/
theorem C2_scenario_three_or_more_workers (w : Nat) (hw : 3 ≤ w) (order : List Nat)
    (ho : order.Perm (List.range w)) :
    (process_dataset dataset1 data_size INT_MIN INT_MAX = some (91, 23)
      ∧ process_dataset dataset2 data_size INT_MIN INT_MAX = some (92, 15)
      ∧ process_dataset dataset3 data_size INT_MIN INT_MAX = some (96, 19))
    ∧ (process_dataset_omp dataset1 data_size INT_MIN INT_MAX = some (91, 23)
      ∧ process_dataset_omp dataset2 data_size INT_MIN INT_MAX = some (92, 15)
      ∧ process_dataset_omp dataset3 data_size INT_MIN INT_MAX = some (96, 19))
    ∧ (mpi_local 0 w = some (91, 23) ∧ mpi_local 1 w = some (92, 15)
      ∧ mpi_local 2 w = some (96, 19))
    ∧ (omp_local 0 = some (91, 23) ∧ omp_local 1 = some (92, 15)
      ∧ omp_local 2 = some (96, 19))
    ∧ mpi_main w = some (96, 15, 81)
    ∧ omp_main order = some (96, 15, 81) := by
  refine ⟨by decide, by decide, ⟨?_, ?_, ?_⟩, by decide, ?_, ?_⟩
  · exact mpi_local_eq 0 w (by omega)
  · exact mpi_local_eq 1 w (by omega)
  · exact mpi_local_eq 2 w (by omega)
  · exact mpi_main_ge_three w hw
  · exact omp_main_ge_three w hw order ho

theorem C2_scenario_three_or_more_workers_witness :
    (3 ≤ 4 ∧ ([3, 1, 0, 2] : List Nat).Perm (List.range 4))
      ∧ mpi_main 4 = some (96, 15, 81) ∧ omp_main [3, 1, 0, 2] = some (96, 15, 81) :=
  ⟨⟨by decide, by decide⟩,
    (C2_scenario_three_or_more_workers 4 (by decide) [3, 1, 0, 2] (by decide)).2.2.2.2⟩

/-- C3: in the MPI program with `w` processes, `1 ≤ w < 3`, the local pairs
are the scans of the first `w` compiled-in datasets and of nothing else, and
the reported maximum and minimum are the true maximum and minimum of the
elements of those first `w` datasets; for `w = 1` the report is maximum 91,
minimum 23, the local result of dataset 1. -/
theorem C3_mpi_fewer_workers (w : Nat) (h1 : 1 ≤ w) (h3 : w < 3) :
    (List.range w).map (fun rank => mpi_local rank w)
        = (datasets.take w).map (fun d => process_dataset d data_size INT_MIN INT_MAX)
      ∧ (∃ gmax gmin, mpi_main w = some (gmax, gmin, int_sub gmax gmin)
          ∧ IsMaxOf gmax (datasets.take w).flatten
          ∧ IsMinOf gmin (datasets.take w).flatten)
      ∧ (w = 1 → mpi_main w = some (91, 23, 68)
          ∧ process_dataset dataset1 data_size INT_MIN INT_MAX = some (91, 23)) := by
  interval_cases w
  · exact ⟨by decide, ⟨91, 23, by decide, by decide, by decide⟩, fun _ => by decide⟩
  · exact ⟨by decide, ⟨92, 15, by decide, by decide, by decide⟩, fun h => absurd h (by decide)⟩

theorem C3_mpi_fewer_workers_witness :
    (1 ≤ 1 ∧ 1 < 3) ∧ mpi_main 1 = some (91, 23, 68) :=
  ⟨⟨by decide, by decide⟩, ((C3_mpi_fewer_workers 1 (by decide) (by decide)).2.2 rfl).1⟩

/-- C4: for every number of workers `w ≥ 1` and every worker `i < w`, on any
three datasets `d1 d2 d3` (the compiled-in ones in particular), the chain of
the MPI program and the chain of the OpenMP program give worker `i` the scan
of dataset number `i` when `i < 3` and the identity pair `(INT_MIN, INT_MAX)`
otherwise; the result of the MPI chain is that of the same chain without the
guards `size > 1` and `size > 2`, hence the same for every `w > i`. -/
theorem C4_static_assignment (d1 d2 d3 : List Int) (n : Int) (w i : Nat) (hw : 1 ≤ w)
    (hi : i < w) :
    mpi_local_on d1 d2 d3 n i w
        = (match [d1, d2, d3][i]? with
          | some d => process_dataset d n INT_MIN INT_MAX
          | none => some (INT_MIN, INT_MAX))
      ∧ omp_local_on d1 d2 d3 n i
        = (match [d1, d2, d3][i]? with
          | some d => process_dataset_omp d n INT_MIN INT_MAX
          | none => some (INT_MIN, INT_MAX))
      ∧ mpi_local_on d1 d2 d3 n i w
        = (if i = 0 then process_dataset d1 n INT_MIN INT_MAX
          else if i = 1 then process_dataset d2 n INT_MIN INT_MAX
          else if i = 2 then process_dataset d3 n INT_MIN INT_MAX
          else some (INT_MIN, INT_MAX))
      ∧ (∀ w', i < w' → mpi_local_on d1 d2 d3 n i w' = mpi_local_on d1 d2 d3 n i w) := by
  have key : ∀ v, i < v → mpi_local_on d1 d2 d3 n i v
      = (if i = 0 then process_dataset d1 n INT_MIN INT_MAX
          else if i = 1 then process_dataset d2 n INT_MIN INT_MAX
          else if i = 2 then process_dataset d3 n INT_MIN INT_MAX
          else some (INT_MIN, INT_MAX)) := by
    intro v hv
    rw [mpi_local_eq_omp_local_on _ _ _ _ _ _ hv]
    unfold omp_local_on
    simp only [process_dataset_omp_eq]
  refine ⟨?_, ?_, key w hi, fun w' hw' => by rw [key w' hw', key w hi]⟩
  · rw [key w hi]
    match i with
    | 0 => rfl
    | 1 => rfl
    | 2 => rfl
    | k + 3 => simp
  · unfold omp_local_on
    match i with
    | 0 => rfl
    | 1 => rfl
    | 2 => rfl
    | k + 3 => simp

theorem C4_static_assignment_witness :
    (1 ≤ 5 ∧ 3 < 5)
      ∧ mpi_local_on dataset1 dataset2 dataset3 data_size 3 5 = some (INT_MIN, INT_MAX)
      ∧ omp_local_on dataset1 dataset2 dataset3 data_size 3 = some (INT_MIN, INT_MAX) :=
  ⟨⟨by decide, by decide⟩,
    (C4_static_assignment dataset1 dataset2 dataset3 data_size 5 3 (by decide) (by decide)).1,
    (C4_static_assignment dataset1 dataset2 dataset3 data_size 5 3 (by decide) (by decide)).2.1⟩

/-- C5: the reduction operators of both programs, `MPI_MAX` / `MPI_MIN` and
the compare-and-assign update of the critical section, are associative and
commutative, and on 32-bit `int` values `INT_MIN` is the identity of the
maximum channel and `INT_MAX` the identity of the minimum channel. -/
theorem C5_reduction_operators (a b c x y : Int) (p q r : Int × Int) (hx : isInt x)
    (hy : isInt y) :
    (MPI_MAX (MPI_MAX a b) c = MPI_MAX a (MPI_MAX b c) ∧ MPI_MAX a b = MPI_MAX b a
      ∧ MPI_MAX INT_MIN x = x ∧ MPI_MAX x INT_MIN = x)
    ∧ (MPI_MIN (MPI_MIN a b) c = MPI_MIN a (MPI_MIN b c) ∧ MPI_MIN a b = MPI_MIN b a
      ∧ MPI_MIN INT_MAX x = x ∧ MPI_MIN x INT_MAX = x)
    ∧ (critical_update (critical_update p q) r = critical_update p (critical_update q r)
      ∧ critical_update p q = critical_update q p
      ∧ critical_update (INT_MIN, INT_MAX) (x, y) = (x, y)
      ∧ critical_update (x, y) (INT_MIN, INT_MAX) = (x, y)) := by
  obtain ⟨hx1, hx2⟩ := hx
  obtain ⟨hy1, hy2⟩ := hy
  unfold INT_MIN at hx1 hy1
  unfold INT_MAX at hx2 hy2
  refine ⟨⟨?_, ?_, ?_, ?_⟩, ⟨?_, ?_, ?_, ?_⟩, ⟨?_, ?_, ?_, ?_⟩⟩
  · unfold MPI_MAX; omega
  · unfold MPI_MAX; omega
  · unfold MPI_MAX INT_MIN; omega
  · unfold MPI_MAX INT_MIN; omega
  · unfold MPI_MIN; omega
  · unfold MPI_MIN; omega
  · unfold MPI_MIN INT_MAX; omega
  · unfold MPI_MIN INT_MAX; omega
  · unfold critical_update
    refine Prod.ext ?_ ?_ <;> dsimp only <;> split_ifs <;> omega
  · unfold critical_update
    refine Prod.ext ?_ ?_ <;> dsimp only <;> split_ifs <;> omega
  · unfold critical_update INT_MIN INT_MAX
    refine Prod.ext ?_ ?_ <;> dsimp only <;> split_ifs <;> omega
  · unfold critical_update INT_MIN INT_MAX
    refine Prod.ext ?_ ?_ <;> dsimp only <;> split_ifs <;> omega

theorem C5_reduction_operators_witness :
    (isInt (-5) ∧ isInt 2147483647)
      ∧ MPI_MAX INT_MIN (-5) = -5 ∧ MPI_MIN INT_MAX (-5) = -5
      ∧ critical_update (INT_MIN, INT_MAX) (-5, 2147483647) = (-5, 2147483647) :=
  ⟨⟨by decide, by decide⟩,
    (C5_reduction_operators 1 2 3 (-5) 2147483647 (1, 2) (3, 4) (5, 6)
      (by decide) (by decide)).1.2.2.1,
    (C5_reduction_operators 1 2 3 (-5) 2147483647 (1, 2) (3, 4) (5, 6)
      (by decide) (by decide)).2.1.2.2.1,
    (C5_reduction_operators 1 2 3 (-5) 2147483647 (1, 2) (3, 4) (5, 6)
      (by decide) (by decide)).2.2.2.2.1⟩

/-- C6: the reduced pair does not depend on the order of the collection of
local pairs: for every permutation of it the critical-section fold of the
OpenMP program gives the same pair and so do the two `MPI_Reduce` calls; and
the OpenMP program prints the same result for every order in which the same
threads enter the critical section. -/
theorem C6_order_independence (l l' : List (Int × Int)) (h : l.Perm l')
    (order order' : List Nat) (ho : order.Perm order') :
    omp_combine l = omp_combine l' ∧ mpi_combine l = mpi_combine l'
      ∧ omp_main order = omp_main order' := by
  refine ⟨omp_combine_perm h, mpi_combine_perm h, ?_⟩
  rw [omp_main_eq, omp_main_eq, omp_combine_perm (ho.map expected_local)]

theorem C6_order_independence_witness :
    (([(1, 5), (7, -2), (3, 3)] : List (Int × Int)).Perm [(3, 3), (1, 5), (7, -2)]
        ∧ ([0, 1, 2, 3] : List Nat).Perm [2, 3, 1, 0])
      ∧ omp_combine [(1, 5), (7, -2), (3, 3)] = omp_combine [(3, 3), (1, 5), (7, -2)]
      ∧ mpi_combine [(1, 5), (7, -2), (3, 3)] = mpi_combine [(3, 3), (1, 5), (7, -2)]
      ∧ omp_main [0, 1, 2, 3] = omp_main [2, 3, 1, 0] :=
  ⟨⟨by decide, by decide⟩,
    C6_order_independence [(1, 5), (7, -2), (3, 3)] [(3, 3), (1, 5), (7, -2)] (by decide)
      [0, 1, 2, 3] [2, 3, 1, 0] (by decide)⟩

/-- C7: inserting identity pairs `(INT_MIN, INT_MAX)`, any number of them at
any positions, into a collection of local pairs does not change the pair the
critical-section fold produces, nor (for the non-empty collections of `int`
pairs that `MPI_Reduce` works on) the pair the two `MPI_Reduce` calls produce;
and for every `w ≥ 3` both programs print with `w` workers what they print
with 3. -/
theorem C7_identity_absorption (l l' : List (Int × Int)) (h : IdleInserted l l')
    (w : Nat) (hw : 3 ≤ w) (order3 order : List Nat) (ho3 : order3.Perm (List.range 3))
    (ho : order.Perm (List.range w)) :
    omp_combine l' = omp_combine l
      ∧ (l ≠ [] → AllInt l → mpi_combine l' = mpi_combine l)
      ∧ mpi_main w = mpi_main 3
      ∧ omp_main order = omp_main order3 := by
  refine ⟨h.omp_combine_same, ?_, ?_, ?_⟩
  · intro hl hint
    rw [mpi_combine_eq_omp_combine (h.ne_nil hl) (h.allInt hint),
      mpi_combine_eq_omp_combine hl hint, h.omp_combine_same]
  · rw [mpi_main_ge_three w hw, mpi_main_ge_three 3 (le_refl 3)]
  · rw [omp_main_ge_three w hw order ho, omp_main_ge_three 3 (le_refl 3) order3 ho3]

theorem C7_identity_absorption_witness :
    (IdleInserted [(4, 1), (9, -3)] [(INT_MIN, INT_MAX), (4, 1), (INT_MIN, INT_MAX), (9, -3)]
        ∧ 3 ≤ 5 ∧ ([2, 0, 1] : List Nat).Perm (List.range 3)
        ∧ ([4, 0, 3, 2, 1] : List Nat).Perm (List.range 5))
      ∧ omp_combine [(INT_MIN, INT_MAX), (4, 1), (INT_MIN, INT_MAX), (9, -3)]
          = omp_combine [(4, 1), (9, -3)]
      ∧ mpi_combine [(INT_MIN, INT_MAX), (4, 1), (INT_MIN, INT_MAX), (9, -3)]
          = mpi_combine [(4, 1), (9, -3)]
      ∧ mpi_main 5 = mpi_main 3
      ∧ omp_main [4, 0, 3, 2, 1] = omp_main [2, 0, 1] :=
  have hins : IdleInserted [(4, 1), (9, -3)]
      [(INT_MIN, INT_MAX), (4, 1), (INT_MIN, INT_MAX), (9, -3)] :=
    .idle (.keep _ (.idle (.keep _ .nil)))
  have hthm := C7_identity_absorption [(4, 1), (9, -3)]
    [(INT_MIN, INT_MAX), (4, 1), (INT_MIN, INT_MAX), (9, -3)] hins 5 (by decide)
    [2, 0, 1] [4, 0, 3, 2, 1] (by decide) (by decide)
  ⟨⟨hins, by decide, by decide, by decide⟩, hthm.1, hthm.2.1 (by decide) (by decide),
    hthm.2.2.1, hthm.2.2.2⟩

/-- C8: for every collection of worker slots, idle ones included, whose
scanned pairs are `int` values, the reduced pair (that of the critical-section
fold, which for a non-empty collection is also that of the two `MPI_Reduce`
calls) has a maximum at least the local maximum and a minimum at most the
local minimum of every non-idle slot, and when some slot is not idle the
global maximum is the local maximum of a non-idle slot and the global minimum
the local minimum of a non-idle slot. -/
theorem C8_global_bounds (slots : List (Option (Int × Int)))
    (hint : ∀ p, some p ∈ slots → isInt p.1 ∧ isInt p.2) :
    (∀ p, some p ∈ slots →
        p.1 ≤ (omp_combine (slots.map slot_pair)).1
          ∧ (omp_combine (slots.map slot_pair)).2 ≤ p.2)
      ∧ ((∃ p, some p ∈ slots) →
          (∃ p, some p ∈ slots ∧ (omp_combine (slots.map slot_pair)).1 = p.1)
            ∧ ∃ q, some q ∈ slots ∧ (omp_combine (slots.map slot_pair)).2 = q.2)
      ∧ (slots ≠ [] →
          mpi_combine (slots.map slot_pair) = some (omp_combine (slots.map slot_pair))) := by
  have hmax := omp_combine_fst (slots.map slot_pair)
  have hmin := omp_combine_snd (slots.map slot_pair)
  have bound : ∀ p, some p ∈ slots →
      p.1 ≤ (omp_combine (slots.map slot_pair)).1
        ∧ (omp_combine (slots.map slot_pair)).2 ≤ p.2 := by
    intro p hp
    have hq : p ∈ slots.map slot_pair := List.mem_map.2 ⟨some p, hp, rfl⟩
    exact ⟨hmax.2 _ (List.mem_cons_of_mem _ (List.mem_map.2 ⟨p, hq, rfl⟩)),
      hmin.2 _ (List.mem_cons_of_mem _ (List.mem_map.2 ⟨p, hq, rfl⟩))⟩
  refine ⟨bound, ?_, ?_⟩
  · rintro ⟨p0, hp0⟩
    have b0 := bound p0 hp0
    have i0 := hint p0 hp0
    constructor
    · have atIdle : (omp_combine (slots.map slot_pair)).1 = INT_MIN →
          ∃ p, some p ∈ slots ∧ (omp_combine (slots.map slot_pair)).1 = p.1 := by
        intro e
        exact ⟨p0, hp0, le_antisymm (e ▸ i0.1.1) b0.1⟩
      rcases List.mem_cons.1 hmax.1 with e | hm
      · exact atIdle e
      · obtain ⟨q, hq, e⟩ := List.mem_map.1 hm
        obtain ⟨sl, hsl, rfl⟩ := List.mem_map.1 hq
        cases sl with
        | none => exact atIdle e.symm
        | some p => exact ⟨p, hsl, e.symm⟩
    · have atIdle : (omp_combine (slots.map slot_pair)).2 = INT_MAX →
          ∃ q, some q ∈ slots ∧ (omp_combine (slots.map slot_pair)).2 = q.2 := by
        intro e
        exact ⟨p0, hp0, le_antisymm b0.2 (e ▸ i0.2.2)⟩
      rcases List.mem_cons.1 hmin.1 with e | hm
      · exact atIdle e
      · obtain ⟨q, hq, e⟩ := List.mem_map.1 hm
        obtain ⟨sl, hsl, rfl⟩ := List.mem_map.1 hq
        cases sl with
        | none => exact atIdle e.symm
        | some p => exact ⟨p, hsl, e.symm⟩
  · intro hne
    exact mpi_combine_eq_omp_combine (by simpa using hne) (slot_pair_allInt slots hint)

theorem C8_global_bounds_witness :
    (∀ p, some p ∈ [none, some ((91 : Int), (23 : Int)), none, some (92, 15)] →
        isInt p.1 ∧ isInt p.2)
      ∧ (∃ p, some p ∈ [none, some ((91 : Int), (23 : Int)), none, some (92, 15)] ∧
          (omp_combine ([none, some (91, 23), none, some (92, 15)].map slot_pair)).1 = p.1)
      ∧ mpi_combine ([none, some (91, 23), none, some (92, 15)].map slot_pair)
          = some (omp_combine ([none, some (91, 23), none, some (92, 15)].map slot_pair)) :=
  have hint : ∀ p, some p ∈ [none, some ((91 : Int), (23 : Int)), none, some (92, 15)] →
      isInt p.1 ∧ isInt p.2 := by
    intro p hp
    simp only [List.mem_cons, Option.some.injEq, List.mem_singleton, reduceCtorEq, false_or,
      List.not_mem_nil, or_false] at hp
    rcases hp with rfl | rfl <;> decide
  have hthm := C8_global_bounds [none, some (91, 23), none, some (92, 15)] hint
  ⟨hint, (hthm.2.1 ⟨(91, 23), by simp⟩).1, hthm.2.2 (by simp)⟩

/-- C9, the claim fails: called with `size = 0` on an array whose first cell
holds 5, both scans return the pair `(5, 5)`; nothing is rejected. -/
theorem C9_empty_dataset_returns_pair :
    process_dataset [5] 0 INT_MIN INT_MAX = some (5, 5)
      ∧ process_dataset_omp [5] 0 INT_MIN INT_MAX = some (5, 5) := by
  decide

/-- C9 as amended: the scans have no check of `size`. They read `dataset[0]`
first; whenever that cell exists and holds `x`, and `size ≤ 1` (zero in
particular), the loop body does not run and the pair returned is `(x, x)`,
whatever the rest of the array and the output cells held. -/
theorem C9_no_empty_check (x : Int) (rest : List Int) (size a b : Int) (hsize : size ≤ 1) :
    process_dataset (x :: rest) size a b = some (x, x)
      ∧ process_dataset_omp (x :: rest) size a b = some (x, x) := by
  have e : (size - 1).toNat = 0 := by omega
  simp [process_dataset, process_dataset_omp, e, scan_loop]

theorem C9_no_empty_check_witness :
    (0 : Int) ≤ 1 ∧ process_dataset [7, 9] 0 1 2 = some (7, 7)
      ∧ process_dataset_omp [7, 9] 0 1 2 = some (7, 7) :=
  ⟨by decide, C9_no_empty_check 7 [9] 0 1 2 (by decide)⟩

/-- C10: on every collection of 32-bit local pairs with one pair per worker
(so at least one), the two `MPI_Reduce` calls of the MPI program produce
exactly the pair that the critical-section updates of the OpenMP program
produce from `(INT_MIN, INT_MAX)`; and with the same number `w ≥ 1` of
workers the two programs print the same maximum, minimum and range, for
every order in which the threads enter the critical section. -/
theorem C10_models_agree (l : List (Int × Int)) (hl : l ≠ []) (hint : AllInt l)
    (w : Nat) (hw : 1 ≤ w) (order : List Nat) (ho : order.Perm (List.range w)) :
    mpi_combine l = some (omp_combine l) ∧ mpi_main w = omp_main order :=
  ⟨mpi_combine_eq_omp_combine hl hint, mpi_main_eq_omp_main w hw order ho⟩

theorem C10_models_agree_witness :
    (([(91, 23), (92, 15), (INT_MIN, INT_MAX)] : List (Int × Int)) ≠ []
        ∧ AllInt [(91, 23), (92, 15), (INT_MIN, INT_MAX)]
        ∧ 1 ≤ 2 ∧ ([1, 0] : List Nat).Perm (List.range 2))
      ∧ mpi_combine [(91, 23), (92, 15), (INT_MIN, INT_MAX)]
          = some (omp_combine [(91, 23), (92, 15), (INT_MIN, INT_MAX)])
      ∧ mpi_main 2 = omp_main [1, 0] :=
  ⟨⟨by decide, by decide, by decide, by decide⟩,
    C10_models_agree [(91, 23), (92, 15), (INT_MIN, INT_MAX)] (by decide) (by decide)
      2 (by decide) [1, 0] (by decide)⟩

/-- C11: on every single-element dataset `[x]` scanned with `size = 1` both
scans return `(x, x)`, whatever the output cells held before; on the dataset
`{7}` they return maximum 7 and minimum 7. -/
theorem C11_single_element (x a b : Int) :
    process_dataset [x] 1 a b = some (x, x)
      ∧ process_dataset_omp [x] 1 a b = some (x, x)
      ∧ process_dataset [7] 1 a b = some (7, 7)
      ∧ process_dataset_omp [7] 1 a b = some (7, 7) := by
  have h : ∀ y : Int, process_dataset [y] 1 a b = some (y, y) := fun y => rfl
  exact ⟨h x, h x, h 7, h 7⟩

/-- C12: the reduction is idempotent. The critical-section fold from fresh
accumulators `(INT_MIN, INT_MAX)` is a function of the collection alone (the
accumulators are initialised by the program itself), so a second run gives
the pair of the first; feeding every local pair to the critical-section
update a second time, from the pair the first run left, leaves that pair
unchanged; and reducing the collection followed by itself gives the same pair
as reducing it once, for the critical-section fold and for the two
`MPI_Reduce` calls. -/
theorem C12_idempotence (l : List (Int × Int)) :
    l.foldl critical_update (INT_MIN, INT_MAX) = omp_combine l
      ∧ l.foldl critical_update (omp_combine l) = omp_combine l
      ∧ omp_combine (l ++ l) = omp_combine l
      ∧ mpi_combine (l ++ l) = mpi_combine l := by
  refine ⟨rfl, foldl_critical_update_again l, ?_, mpi_combine_append_self l⟩
  have e : omp_combine (l ++ l) = l.foldl critical_update (omp_combine l) := by
    unfold omp_combine; rw [List.foldl_append]
  rw [e]; exact foldl_critical_update_again l

/-- C13: when every slot is idle, that is when the collection consists only
of pairs `(INT_MIN, INT_MAX)`, the critical-section fold ends at
`(INT_MIN, INT_MAX)` (also on the empty collection) and so do the two
`MPI_Reduce` calls on their domain, the collections of at least one pair. -/
theorem C13_all_idle (l : List (Int × Int)) (h : ∀ p ∈ l, p = (INT_MIN, INT_MAX)) :
    omp_combine l = (INT_MIN, INT_MAX)
      ∧ omp_combine [] = (INT_MIN, INT_MAX)
      ∧ (l ≠ [] → mpi_combine l = some (INT_MIN, INT_MAX)) := by
  have homp : omp_combine l = (INT_MIN, INT_MAX) := by
    refine omp_combine_eq ⟨List.mem_cons_self _ _, ?_⟩ ⟨List.mem_cons_self _ _, ?_⟩
    · intro x hx
      rcases List.mem_cons.1 hx with rfl | hx
      · exact le_refl _
      · obtain ⟨p, hp, rfl⟩ := List.mem_map.1 hx
        rw [h p hp]
    · intro x hx
      rcases List.mem_cons.1 hx with rfl | hx
      · exact le_refl _
      · obtain ⟨p, hp, rfl⟩ := List.mem_map.1 hx
        rw [h p hp]
  refine ⟨homp, rfl, fun hne => ?_⟩
  have hall : AllInt l := by
    intro p hp
    rw [h p hp]; decide
  rw [mpi_combine_eq_omp_combine hne hall, homp]

theorem C13_all_idle_witness :
    (∀ p ∈ [(INT_MIN, INT_MAX), (INT_MIN, INT_MAX)], p = (INT_MIN, INT_MAX))
      ∧ omp_combine [(INT_MIN, INT_MAX), (INT_MIN, INT_MAX)] = (INT_MIN, INT_MAX)
      ∧ mpi_combine [(INT_MIN, INT_MAX), (INT_MIN, INT_MAX)] = some (INT_MIN, INT_MAX) :=
  ⟨by decide,
    (C13_all_idle [(INT_MIN, INT_MAX), (INT_MIN, INT_MAX)] (by decide)).1,
    (C13_all_idle [(INT_MIN, INT_MAX), (INT_MIN, INT_MAX)] (by decide)).2.2 (by decide)⟩

/-- C15: for all non-empty sequences `A` and `B`, the scan of `A ++ B` is the
pair of the larger of the two scanned maxima and the smaller of the two
scanned minima, which is also what the two `MPI_Reduce` calls and what the
critical-section update make of the two scans; and for `w ≥ 3` workers the
pair both programs print is the scan of the 30 elements
`dataset1 ++ dataset2 ++ dataset3`. -/
theorem C15_partition_then_reduce (A B : List Int) (a b : Int) (hA : A ≠ []) (hB : B ≠ [])
    (w : Nat) (hw : 3 ≤ w) (order : List Nat) (ho : order.Perm (List.range w)) :
    (∃ ma na mb nb,
        process_dataset A (A.length : Nat) a b = some (ma, na)
          ∧ process_dataset B (B.length : Nat) a b = some (mb, nb)
          ∧ process_dataset (A ++ B) ((A ++ B).length : Nat) a b
              = some (max ma mb, min na nb)
          ∧ process_dataset_omp (A ++ B) ((A ++ B).length : Nat) a b
              = some (max ma mb, min na nb)
          ∧ mpi_combine [(ma, na), (mb, nb)] = some (max ma mb, min na nb)
          ∧ critical_update (ma, na) (mb, nb) = (max ma mb, min na nb))
      ∧ ∃ gmax gmin,
          process_dataset (dataset1 ++ dataset2 ++ dataset3) 30 a b = some (gmax, gmin)
            ∧ mpi_main w = some (gmax, gmin, int_sub gmax gmin)
            ∧ omp_main order = some (gmax, gmin, int_sub gmax gmin) := by
  constructor
  · have hAB : A ++ B ≠ [] := by simp [hA]
    refine ⟨(scan_pair A).1, (scan_pair A).2, (scan_pair B).1, (scan_pair B).2,
      process_dataset_eq_scan_pair A a b hA, process_dataset_eq_scan_pair B a b hB, ?_, ?_, ?_, ?_⟩
    · rw [process_dataset_eq_scan_pair _ a b hAB, scan_pair_append A B hA hB]
    · rw [process_dataset_omp_eq, process_dataset_eq_scan_pair _ a b hAB,
        scan_pair_append A B hA hB]
    · unfold mpi_combine MPI_Reduce MPI_MAX MPI_MIN
      rfl
    · unfold critical_update
      refine Prod.ext ?_ ?_ <;> dsimp only <;> split_ifs <;> omega
  · exact ⟨96, 15, process_dataset_all_datasets a b, mpi_main_ge_three w hw,
      omp_main_ge_three w hw order ho⟩

theorem C15_partition_then_reduce_witness :
    ((([4, 9, -1] : List Int) ≠ [] ∧ ([7, 12] : List Int) ≠ [] ∧ 3 ≤ 3
        ∧ ([1, 2, 0] : List Nat).Perm (List.range 3)))
      ∧ (∃ ma na mb nb,
        process_dataset [4, 9, -1] (([4, 9, -1] : List Int).length : Nat) 0 0 = some (ma, na)
          ∧ process_dataset [7, 12] (([7, 12] : List Int).length : Nat) 0 0 = some (mb, nb)
          ∧ process_dataset ([4, 9, -1] ++ [7, 12])
              ((([4, 9, -1] : List Int) ++ [7, 12]).length : Nat) 0 0
              = some (max ma mb, min na nb)
          ∧ process_dataset_omp ([4, 9, -1] ++ [7, 12])
              ((([4, 9, -1] : List Int) ++ [7, 12]).length : Nat) 0 0
              = some (max ma mb, min na nb)
          ∧ mpi_combine [(ma, na), (mb, nb)] = some (max ma mb, min na nb)
          ∧ critical_update (ma, na) (mb, nb) = (max ma mb, min na nb)) :=
  ⟨⟨by decide, by decide, by decide, by decide⟩,
    (C15_partition_then_reduce [4, 9, -1] [7, 12] 0 0 (by decide) (by decide) 3 (by decide)
      [1, 2, 0] (by decide)).1⟩

/-- C17: the scan depends only on which values occur in the sequence. For
every non-empty `S`, every permutation `S'` of `S` and every sequence `T` with
the same elements as `S` in any order and multiplicity (so with further
copies of the extrema, or another first element), both scans return on `S'`
and on `T` the pair they return on `S`, whatever the output cells held before
each call. -/
theorem C17_scan_permutation_invariant (S S' T : List Int) (a b a' b' : Int) (hS : S ≠ [])
    (hp : S'.Perm S) (hT : ∀ x, x ∈ T ↔ x ∈ S) :
    ∃ r, process_dataset S (S.length : Nat) a b = some r
      ∧ process_dataset S' (S'.length : Nat) a' b' = some r
      ∧ process_dataset T (T.length : Nat) a' b' = some r
      ∧ process_dataset_omp S (S.length : Nat) a b = some r
      ∧ process_dataset_omp S' (S'.length : Nat) a' b' = some r
      ∧ process_dataset_omp T (T.length : Nat) a' b' = some r := by
  have hS' : ∀ x, x ∈ S' ↔ x ∈ S := fun x => hp.mem_iff
  have e1 : process_dataset S (S.length : Nat) a b = some (scan_pair S) :=
    process_dataset_eq_scan_pair S a b hS
  have e2 : process_dataset S' (S'.length : Nat) a' b' = some (scan_pair S) := by
    rw [process_dataset_eq_scan_pair S' a' b' (ne_nil_of_mem_iff hS hS'), scan_pair_congr hS hS']
  have e3 : process_dataset T (T.length : Nat) a' b' = some (scan_pair S) := by
    rw [process_dataset_eq_scan_pair T a' b' (ne_nil_of_mem_iff hS hT), scan_pair_congr hS hT]
  exact ⟨scan_pair S, e1, e2, e3, e1, e2, e3⟩

theorem C17_scan_permutation_invariant_witness :
    (([5, -2, 9, 5] : List Int) ≠ [] ∧ ([9, 5, 5, -2] : List Int).Perm [5, -2, 9, 5]
        ∧ ∀ x, x ∈ ([-2, 9, 9, 5, -2] : List Int) ↔ x ∈ ([5, -2, 9, 5] : List Int))
      ∧ ∃ r, process_dataset [5, -2, 9, 5] (([5, -2, 9, 5] : List Int).length : Nat) 0 0 = some r
        ∧ process_dataset [9, 5, 5, -2] (([9, 5, 5, -2] : List Int).length : Nat) 3 4 = some r
        ∧ process_dataset [-2, 9, 9, 5, -2] (([-2, 9, 9, 5, -2] : List Int).length : Nat) 3 4
            = some r
        ∧ process_dataset_omp [5, -2, 9, 5] (([5, -2, 9, 5] : List Int).length : Nat) 0 0
            = some r
        ∧ process_dataset_omp [9, 5, 5, -2] (([9, 5, 5, -2] : List Int).length : Nat) 3 4
            = some r
        ∧ process_dataset_omp [-2, 9, 9, 5, -2] (([-2, 9, 9, 5, -2] : List Int).length : Nat) 3 4
            = some r :=
  have hT : ∀ x, x ∈ ([-2, 9, 9, 5, -2] : List Int) ↔ x ∈ ([5, -2, 9, 5] : List Int) := by
    intro x
    simp only [List.mem_cons, List.mem_singleton, List.not_mem_nil, or_false]
    constructor <;> intro h <;> omega
  ⟨⟨by decide, by decide, hT⟩,
    C17_scan_permutation_invariant [5, -2, 9, 5] [9, 5, 5, -2] [-2, 9, 9, 5, -2] 0 0 3 4
      (by decide) (by decide) hT⟩

/-- C16: no sentinel is reported. For every number `w ≥ 1` of workers and any
three datasets of `n ≥ 1` 32-bit elements each, both programs (the OpenMP one
for every order in which its `w` threads enter the critical section) report
the same global maximum and minimum, both are elements of the datasets (so
`INT_MIN` or `INT_MAX` only when it occurs in the data), the minimum is at
most the maximum, and the difference maximum minus minimum is non-negative as
a mathematical integer. On the compiled-in datasets the printed range is that
difference and it is a 32-bit value: the subtraction does not overflow. -/
theorem C16_no_sentinel_reported (d1 d2 d3 : List Int) (n : Nat) (hn : 1 ≤ n)
    (h1 : d1.length = n) (h2 : d2.length = n) (h3 : d3.length = n)
    (hint : ∀ x ∈ d1 ++ d2 ++ d3, isInt x)
    (w : Nat) (hw : 1 ≤ w) (order : List Nat) (ho : order.Perm (List.range w)) :
    (∃ gmax gmin, mpi_main_on d1 d2 d3 (n : Int) w = some (gmax, gmin, int_sub gmax gmin)
        ∧ omp_main_on d1 d2 d3 (n : Int) order = some (gmax, gmin, int_sub gmax gmin)
        ∧ gmax ∈ d1 ++ d2 ++ d3 ∧ gmin ∈ d1 ++ d2 ++ d3
        ∧ gmin ≤ gmax ∧ 0 ≤ gmax - gmin)
      ∧ ∃ gmax gmin, mpi_main w = some (gmax, gmin, gmax - gmin)
          ∧ omp_main order = some (gmax, gmin, gmax - gmin)
          ∧ gmax ∈ dataset1 ++ dataset2 ++ dataset3
          ∧ gmin ∈ dataset1 ++ dataset2 ++ dataset3
          ∧ 0 ≤ gmax - gmin ∧ isInt (gmax - gmin) := by
  constructor
  · obtain ⟨gmax, gmin, e1, e2, m1, m2, hle⟩ :=
      main_on_spec d1 d2 d3 n hn h1 h2 h3 hint w hw order ho
    exact ⟨gmax, gmin, e1, e2, m1, m2, hle, by omega⟩
  · have hI : ∀ x ∈ dataset1 ++ dataset2 ++ dataset3, isInt x := by
      intro x hx
      have := datasets_bounds x hx
      unfold isInt INT_MIN INT_MAX
      omega
    obtain ⟨gmax, gmin, e1, e2, m1, m2, hle⟩ :=
      main_on_spec dataset1 dataset2 dataset3 10 (by decide) rfl rfl rfl hI w hw order ho
    have b1 := datasets_bounds gmax m1
    have b2 := datasets_bounds gmin m2
    have hr : isInt (gmax - gmin) := by
      unfold isInt INT_MIN INT_MAX
      omega
    rw [int_sub_eq gmax gmin hr] at e1 e2
    exact ⟨gmax, gmin, e1, e2, m1, m2, by omega, hr⟩

theorem C16_no_sentinel_reported_witness :
    (1 ≤ 2 ∧ ([2, -3] : List Int).length = 2 ∧ ([7, 7] : List Int).length = 2
        ∧ ([0, 1] : List Int).length = 2
        ∧ (∀ x ∈ ([2, -3] : List Int) ++ [7, 7] ++ [0, 1], isInt x)
        ∧ 1 ≤ 2 ∧ ([1, 0] : List Nat).Perm (List.range 2))
      ∧ ∃ gmax gmin,
          mpi_main_on [2, -3] [7, 7] [0, 1] ((2 : Nat) : Int) 2
              = some (gmax, gmin, int_sub gmax gmin)
            ∧ omp_main_on [2, -3] [7, 7] [0, 1] ((2 : Nat) : Int) [1, 0]
              = some (gmax, gmin, int_sub gmax gmin)
            ∧ gmax ∈ ([2, -3] : List Int) ++ [7, 7] ++ [0, 1]
            ∧ gmin ∈ ([2, -3] : List Int) ++ [7, 7] ++ [0, 1]
            ∧ gmin ≤ gmax ∧ 0 ≤ gmax - gmin :=
  ⟨⟨by decide, rfl, rfl, rfl, by decide, by decide, by decide⟩,
    (C16_no_sentinel_reported [2, -3] [7, 7] [0, 1] 2 (by decide) rfl rfl rfl (by decide)
      2 (by decide) [1, 0] (by decide)).1⟩

end MaxMin
